import Mathlib

/-!
Shallow embedding of the build-agent core (packages `buildbox` and `buildkite`)
and verification of the frozen claims about it.

Part one embeds `src/buildbox/job.go`: the `Job` record and `Job.Run`, the
job-engine loop.  External collaborators (the HTTP client whose `JobUpdate`
results the engine reads, the process runner `RunScript`, and the clock) are
modelled as inputs: each status-push response is an input `Tick`, the script
outcome is an input `ScriptResult`, and timestamps are input strings.  The
engine's observable actions (log lines, pushes, the kill request) are recorded
in an event trace so that ordering claims can be stated.

Part two embeds `src/buildkite/artifact_uploader.go`: artifact collection,
transport dispatch, batch registration and the upload fan-out.  The worker
pool runs the spawned closures concurrently in the original; the closures are
independent except for the error list, which is appended to under the pool's
lock, so the batch is modelled as the sequential execution of the spawned
closures in submission order.
-/

/-! ## Generic list helpers -/

/-- If `A ++ tail` splits as `l1 ++ e :: l2` and `e` does not occur in `tail`,
then the split point lies inside `A`, so all of `tail` is inside `l2`. -/
lemma mem_right_of_split {α : Type} (A : List α) :
    ∀ (tail l1 l2 : List α) (e x : α),
      A ++ tail = l1 ++ e :: l2 → e ∉ tail → x ∈ tail → x ∈ l2 := by
  induction A with
  | nil =>
    intro tail l1 l2 e x h he _
    have h' : tail = l1 ++ e :: l2 := by simpa using h
    exact absurd (h'.symm ▸ List.mem_append_right l1 (List.mem_cons_self e l2)) he
  | cons a A ih =>
    intro tail l1 l2 e x h he hx
    cases l1 with
    | nil =>
      simp only [List.nil_append, List.cons_append, List.cons.injEq] at h
      exact h.2 ▸ List.mem_append_right A hx
    | cons b l1' =>
      simp only [List.cons_append, List.cons.injEq] at h
      exact ih tail l1' l2 e x h.2 he hx

/-- If `A ++ B` splits as `l1 ++ x :: l2` where the marker `P` holds at `x`
but nowhere in `A`, then all of `A` lies inside `l1`. -/
lemma mem_left_of_marked {α : Type} (A : List α) :
    ∀ (B l1 l2 : List α) (x : α) (P : α → Bool),
      A ++ B = l1 ++ x :: l2 → (∀ y ∈ A, P y = false) → P x = true →
      ∀ y ∈ A, y ∈ l1 := by
  induction A with
  | nil => intro B l1 l2 x P _ _ _ y hy; exact absurd hy (List.not_mem_nil y)
  | cons a A ih =>
    intro B l1 l2 x P h hA hx y hy
    cases l1 with
    | nil =>
      simp only [List.nil_append, List.cons_append, List.cons.injEq] at h
      have hfa : P a = false := hA a (List.mem_cons_self a A)
      have hfx : P x = false := h.1 ▸ hfa
      rw [hfx] at hx
      exact Bool.noConfusion hx
    | cons b l1' =>
      simp only [List.cons_append, List.cons.injEq] at h
      rcases List.mem_cons.mp hy with rfl | hy'
      · exact h.1 ▸ List.mem_cons_self b l1'
      · exact List.mem_cons_of_mem b
          (ih B l1' l2 x P h.2 (fun z hz => hA z (List.mem_cons_of_mem a hz)) hx y hy')

/-! ## Job engine: `src/buildbox/job.go` -/

/-- Embeds the `Job` struct (job.go lines 16-24).  The Go struct keeps
`ExitStatus`, `StartedAt` and `FinishedAt` as strings with `omitempty`
because the API reads *presence* of a value; absent is the empty string. -/
structure Job where
  id : String
  state : String
  env : List (String × String)
  output : String
  exitStatus : String
  startedAt : String
  finishedAt : String
deriving DecidableEq

/-- Embeds the `Process` handle as the job engine observes it: accumulated
output and the exit status read after termination (job.go lines 66, 88, 100). -/
structure Process where
  output : String
  exitStatus : Int
deriving DecidableEq

/-- Observable actions of `Job.Run`, in program order.  Pushes carry the job
value sent; `kill` is the `process.Kill()` request (job.go line 76); `fatal`
is the `log.Fatal(err)` call that terminates the agent (line 71). -/
inductive Event where
  | logStartingJob (id : String)
  | pushStarted (job : Job)
  | runScript (env : List String)
  | pushUpdate (job : Job)
  | fatal (err : String)
  | logCancelling (id : String)
  | kill
  | pushFinal (job : Job)
  | logFinished (id : String)
deriving DecidableEq

/-- One invocation of the per-second callback (job.go lines 65-78): the
process-output snapshot passed in, and the server's `JobUpdate` response. -/
structure Tick where
  outputSnapshot : String
  response : Except String Job

/-- Outcome of the external `RunScript` call (job.go line 83).  `RunScript`
itself is not under src/; per the spec (§4.2) a spawn failure raises a
LaunchError before any callback fires, so the failure case carries no ticks,
and per §4.3 the engine still finalizes without crashing, so the handle it is
left with is the zero-valued `Process`.  On success the callback fired once
per tick and the final handle carries the final output and exit status. -/
inductive ScriptResult where
  | ok (ticks : List Tick) (finalProcess : Process)
  | launchError (msg : String)

/-- Modelled from the spec: the zero-valued `Process` handle the engine is
left holding when `RunScript` (not under src/) fails to spawn; spec §4.3
requires the engine to finalize from it rather than crash. -/
def zeroProcess : Process := { output := "", exitStatus := 0 }

/-- External inputs to one `Job.Run` call: the (ignored) result of the
started push (line 61), the script outcome with its callback ticks, the
(ignored) result of the final push (line 103), and the two clock readings. -/
structure RunInput where
  startedPush : Except String Job
  script : ScriptResult
  finalPush : Except String Job
  startTime : String
  finishTime : String

/-- Embeds `fmt.Sprintf("%d", n)` for the exit status (job.go line 100). -/
def sprintfD (n : Int) : String := toString n

/-- Embeds the env construction of job.go lines 52-57:
`fmt.Sprintf("%s=%s", key, value)` for each pair. -/
def envStrings (j : Job) : List String := j.env.map fun p => p.1 ++ "=" ++ p.2

/-- Embeds one invocation of the status callback (job.go lines 65-78):
copy the output snapshot into the job, push the update; a push error is
`log.Fatal` (the returned flag is true and the agent dies); otherwise, if the
response reports state "canceled", log and invoke `Kill`. -/
def tickStep (j : Job) (t : Tick) : Job × List Event × Bool :=
  let j1 := { j with output := t.outputSnapshot }
  match t.response with
  | Except.error e => (j1, [Event.pushUpdate j1, Event.fatal e], true)
  | Except.ok upd =>
    if upd.state = "canceled" then
      (j1, [Event.pushUpdate j1, Event.logCancelling j1.id, Event.kill], false)
    else
      (j1, [Event.pushUpdate j1], false)

/-- Runs the callback over the ticks in order; a fatal push stops the agent,
so later ticks are not processed. -/
def runTicks : Job → List Tick → Job × List Event × Bool
  | j, [] => (j, [], false)
  | j, t :: ts =>
    match tickStep j t with
    | (j1, evs, true) => (j1, evs, true)
    | (j1, evs, false) =>
      match runTicks j1 ts with
      | (j2, evs2, f2) => (j2, evs ++ evs2, f2)

/-- Result of `Job.Run`: either the agent died inside `log.Fatal` during a
tick, or `Run` returned, carrying its trace, the final job value, and the
returned error value. -/
inductive RunOutcome where
  | fatal (events : List Event)
  | returned (events : List Event) (job : Job) (err : Option String)
deriving DecidableEq

/-- Embeds `Job.Run` (job.go lines 48-108).  Log "Starting job"; stamp
`StartedAt` and push it, ignoring the result (lines 60-61); call `RunScript`
(line 83); on success store the final output, on launch failure store the
error text as output (lines 86-91); stamp `FinishedAt` (line 94);
unconditionally record `ExitStatus` from the process handle (line 100);
push the final update, ignoring the result (line 103); return `nil`. -/
def runJob (j0 : Job) (inp : RunInput) : RunOutcome :=
  let j1 := { j0 with startedAt := inp.startTime }
  let pre := [Event.logStartingJob j0.id, Event.pushStarted j1,
    Event.runScript (envStrings j0)]
  match inp.script with
  | ScriptResult.launchError msg =>
    let j2 := { j1 with output := msg, finishedAt := inp.finishTime, exitStatus := sprintfD zeroProcess.exitStatus }
    RunOutcome.returned (pre ++ [Event.pushFinal j2, Event.logFinished j2.id]) j2 none
  | ScriptResult.ok ticks proc =>
    match runTicks j1 ticks with
    | (_, tickEvs, true) => RunOutcome.fatal (pre ++ tickEvs)
    | (jT, tickEvs, false) =>
      let j2 := { jT with output := proc.output, finishedAt := inp.finishTime, exitStatus := sprintfD proc.exitStatus }
      RunOutcome.returned
        (pre ++ tickEvs ++ [Event.pushFinal j2, Event.logFinished j2.id]) j2 none

/-- Trace of a run outcome. -/
def RunOutcome.events : RunOutcome → List Event
  | RunOutcome.fatal evs => evs
  | RunOutcome.returned evs _ _ => evs

/-- Final job value, when `Run` returned. -/
def RunOutcome.finalJob? : RunOutcome → Option Job
  | RunOutcome.fatal _ => none
  | RunOutcome.returned _ j _ => some j

/-- True when `Run` returned and its trace contains the final push of the
job value it ended with. -/
def RunOutcome.finalPushed : RunOutcome → Bool
  | RunOutcome.fatal _ => false
  | RunOutcome.returned evs j _ => decide (Event.pushFinal j ∈ evs)

/-- True when the run ended inside `log.Fatal`. -/
def RunOutcome.isFatal : RunOutcome → Bool
  | RunOutcome.fatal _ => true
  | RunOutcome.returned _ _ _ => false

/-- Events that the status callback can emit. -/
def Event.isTickEvent : Event → Bool
  | Event.pushUpdate _ => true
  | Event.logCancelling _ => true
  | Event.kill => true
  | Event.fatal _ => true
  | _ => false

/-- Recognizer for the agent-terminating `log.Fatal` event. -/
def Event.isFatalLog : Event → Bool
  | Event.fatal _ => true
  | _ => false

lemma tickStep_kind (j : Job) (t : Tick) :
    ∀ ev ∈ (tickStep j t).2.1, ev.isTickEvent = true := by
  rcases t with ⟨o, resp⟩
  cases resp with
  | error e => simp [tickStep, Event.isTickEvent]
  | ok upd =>
    by_cases hc : upd.state = "canceled" <;> simp [tickStep, hc, Event.isTickEvent]

lemma runTicks_kind (ts : List Tick) :
    ∀ (j : Job), ∀ ev ∈ (runTicks j ts).2.1, ev.isTickEvent = true := by
  induction ts with
  | nil => intro j ev hev; simp [runTicks] at hev
  | cons t ts ih =>
    intro j ev hev
    rcases hstep : tickStep j t with ⟨j1, evs, b⟩
    cases b with
    | true =>
      simp only [runTicks, hstep] at hev
      exact tickStep_kind j t ev (by rw [hstep]; exact hev)
    | false =>
      rcases hrest : runTicks j1 ts with ⟨j2, evs2, f2⟩
      simp only [runTicks, hstep, hrest] at hev
      rcases List.mem_append.mp hev with h | h
      · exact tickStep_kind j t ev (by rw [hstep]; exact h)
      · exact ih j1 ev (by rw [hrest]; exact h)

lemma tickStep_fatal_iff (j : Job) (t : Tick) :
    (tickStep j t).2.2 = true ↔ ∃ e, t.response = Except.error e := by
  rcases t with ⟨o, resp⟩
  cases resp with
  | error e => simp [tickStep]
  | ok upd =>
    by_cases hc : upd.state = "canceled" <;> simp [tickStep, hc]

lemma tickStep_fatal_mem (j : Job) (t : Tick) (h : (tickStep j t).2.2 = true) :
    ∃ msg, Event.fatal msg ∈ (tickStep j t).2.1 := by
  rcases t with ⟨o, resp⟩
  cases resp with
  | error e => exact ⟨e, by simp [tickStep]⟩
  | ok upd => by_cases hc : upd.state = "canceled" <;> simp [tickStep, hc] at h

lemma runTicks_fatal_iff (ts : List Tick) :
    ∀ (j : Job), (runTicks j ts).2.2 = true ↔
      ∃ t ∈ ts, ∃ e, t.response = Except.error e := by
  induction ts with
  | nil => intro j; simp [runTicks]
  | cons t ts ih =>
    intro j
    rcases hstep : tickStep j t with ⟨j1, evs, b⟩
    cases b with
    | true =>
      simp only [runTicks, hstep]
      have := (tickStep_fatal_iff j t).mp (by rw [hstep])
      simp only [List.mem_cons, true_iff]
      exact ⟨t, Or.inl rfl, this⟩
    | false =>
      rcases hrest : runTicks j1 ts with ⟨j2, evs2, f2⟩
      simp only [runTicks, hstep, hrest]
      have hnot : ¬ ∃ e, t.response = Except.error e := by
        intro hex
        have := (tickStep_fatal_iff j t).mpr hex
        rw [hstep] at this
        simp at this
      have := ih j1
      rw [hrest] at this
      simp only at this
      rw [this]
      constructor
      · rintro ⟨t', ht', he⟩; exact ⟨t', List.mem_cons_of_mem t ht', he⟩
      · rintro ⟨t', ht', he⟩
        rcases List.mem_cons.mp ht' with rfl | ht''
        · exact absurd he hnot
        · exact ⟨t', ht'', he⟩

lemma runTicks_fatal_mem (ts : List Tick) :
    ∀ (j : Job), (runTicks j ts).2.2 = true →
      ∃ msg, Event.fatal msg ∈ (runTicks j ts).2.1 := by
  induction ts with
  | nil => intro j h; simp [runTicks] at h
  | cons t ts ih =>
    intro j h
    rcases hstep : tickStep j t with ⟨j1, evs, b⟩
    cases b with
    | true =>
      simp only [runTicks, hstep]
      have := tickStep_fatal_mem j t (by rw [hstep])
      rw [hstep] at this
      exact this
    | false =>
      rcases hrest : runTicks j1 ts with ⟨j2, evs2, f2⟩
      simp only [runTicks, hstep, hrest] at h ⊢
      rcases ih j1 (by rw [hrest]; exact h) with ⟨msg, hmsg⟩
      rw [hrest] at hmsg
      exact ⟨msg, List.mem_append_right evs hmsg⟩

/-! ## Claims about the job engine -/

/-- C1, part of the statement as a concrete run: job, canceled response, input. -/
def c1Job : Job := ⟨"1", "scheduled", [], "", "", "", ""⟩

/-- Server response reporting cancellation for the C1 witness run. -/
def c1Canceled : Job := ⟨"1", "canceled", [], "", "", "", ""⟩

/-- The single callback tick of the C1 witness run. -/
def c1Tick : Tick := ⟨"out", Except.ok c1Canceled⟩

/-- Input of the C1 witness run. -/
def c1Inp : RunInput :=
  { startedPush := Except.ok c1Job, script := ScriptResult.ok [c1Tick] ⟨"out", 0⟩,
    finalPush := Except.ok c1Job, startTime := "S", finishTime := "F" }

/-- Job value after `StartedAt` is stamped in the C1 witness run. -/
def c1J1 : Job := ⟨"1", "scheduled", [], "", "", "S", ""⟩

/-- Job value pushed on the C1 witness run's tick. -/
def c1JPushed : Job := ⟨"1", "scheduled", [], "out", "", "S", ""⟩

/-- Final job value of the C1 witness run. -/
def c1J2 : Job := ⟨"1", "scheduled", [], "out", "0", "S", "F"⟩

/-- Trace of the C1 witness run up to the kill event. -/
def c1L1 : List Event :=
  [Event.logStartingJob "1", Event.pushStarted c1J1, Event.runScript [],
   Event.pushUpdate c1JPushed, Event.logCancelling "1"]

/-- Trace of the C1 witness run after the kill event. -/
def c1L2 : List Event := [Event.pushFinal c1J2, Event.logFinished "1"]

/-- Full trace of the C1 witness run. -/
def c1Evs : List Event := c1L1 ++ Event.kill :: c1L2

/-- C1: on a callback tick, `Kill` is invoked exactly when the status-push
response reports state "canceled"; and in any completed run, every kill event
precedes the final (Finalizing) push of the job. -/
theorem c1_cancel_kill :
    (∀ (j : Job) (t : Tick),
      Event.kill ∈ (tickStep j t).2.1 ↔
        ∃ upd, t.response = Except.ok upd ∧ upd.state = "canceled")
    ∧ (∀ (j0 : Job) (inp : RunInput) (evs : List Event) (jF : Job)
        (e : Option String) (l1 l2 : List Event),
        runJob j0 inp = RunOutcome.returned evs jF e →
        evs = l1 ++ Event.kill :: l2 → Event.pushFinal jF ∈ l2) := by
  constructor
  · intro j t
    rcases t with ⟨o, resp⟩
    cases resp with
    | error e => simp [tickStep]
    | ok upd =>
      by_cases hc : upd.state = "canceled" <;> simp [tickStep, hc]
  · intro j0 inp evs jF e l1 l2 hrun hsplit
    cases hs : inp.script with
    | launchError msg =>
      simp only [runJob, hs] at hrun
      injection hrun with h1 h2 h3
      rw [← h2]
      rw [← h1] at hsplit
      exact mem_right_of_split _ _ l1 l2 Event.kill _ hsplit (by simp) (by simp)
    | ok ticks proc =>
      rcases hrt : runTicks { j0 with startedAt := inp.startTime } ticks with ⟨jT, tickEvs, f⟩
      cases f with
      | true => simp only [runJob, hs, hrt] at hrun; exact absurd hrun (by simp)
      | false =>
        simp only [runJob, hs, hrt] at hrun
        injection hrun with h1 h2 h3
        rw [← h2]
        rw [← h1] at hsplit
        exact mem_right_of_split _ _ l1 l2 Event.kill _ hsplit (by simp) (by simp)

/-- Witness for C1 at the concrete canceled run: the final push indeed lies
after the kill event. -/
theorem c1_witness : Event.pushFinal c1J2 ∈ c1L2 :=
  c1_cancel_kill.2 c1Job c1Inp c1Evs c1J2 none c1L1 c1L2 (by decide) rfl

/-- C7: a failing status push on any callback tick of the running phase kills
the agent process: the run ends in `log.Fatal` (the error is logged, not
swallowed) and the job never reaches the final push or the finished log. -/
theorem c7_push_failure_fatal (j0 : Job) (inp : RunInput) (ticks : List Tick)
    (proc : Process) (t : Tick) (e : String)
    (hs : inp.script = ScriptResult.ok ticks proc) (ht : t ∈ ticks)
    (he : t.response = Except.error e) :
    (runJob j0 inp).isFatal = true
    ∧ (runJob j0 inp).events.any Event.isFatalLog = true
    ∧ (∀ jx, Event.pushFinal jx ∉ (runJob j0 inp).events)
    ∧ (∀ s, Event.logFinished s ∉ (runJob j0 inp).events) := by
  have hfat : (runTicks { j0 with startedAt := inp.startTime } ticks).2.2 = true :=
    (runTicks_fatal_iff ticks { j0 with startedAt := inp.startTime }).mpr ⟨t, ht, e, he⟩
  obtain ⟨msg, hmsg⟩ :=
    runTicks_fatal_mem ticks { j0 with startedAt := inp.startTime } hfat
  have hkind := runTicks_kind ticks { j0 with startedAt := inp.startTime }
  rcases hrt : runTicks { j0 with startedAt := inp.startTime } ticks with ⟨jT, tickEvs, f⟩
  rw [hrt] at hfat hmsg hkind
  have hf : f = true := hfat
  subst hf
  have hmsg' : Event.fatal msg ∈ tickEvs := hmsg
  have hkind' : ∀ ev ∈ tickEvs, ev.isTickEvent = true := hkind
  simp only [runJob, hs, hrt]
  refine ⟨rfl, ?_, ?_, ?_⟩
  · simp only [RunOutcome.events, List.any_eq_true]
    exact ⟨Event.fatal msg, List.mem_append_right _ hmsg', rfl⟩
  · intro jx hmem
    simp only [RunOutcome.events] at hmem
    rcases List.mem_append.mp hmem with h | h
    · simp at h
    · have := hkind' _ h
      simp [Event.isTickEvent] at this
  · intro s hmem
    simp only [RunOutcome.events] at hmem
    rcases List.mem_append.mp hmem with h | h
    · simp at h
    · have := hkind' _ h
      simp [Event.isTickEvent] at this

/-- Job of the C7 witness run. -/
def c7Job : Job := ⟨"7", "scheduled", [], "", "", "", ""⟩

/-- The failing tick of the C7 witness run. -/
def c7Tick : Tick := ⟨"partial out", Except.error "Put jobs/7: connection reset"⟩

/-- Input of the C7 witness run. -/
def c7Inp : RunInput :=
  { startedPush := Except.ok c7Job, script := ScriptResult.ok [c7Tick] ⟨"x", 1⟩,
    finalPush := Except.ok c7Job, startTime := "S", finishTime := "F" }

/-- Witness for C7: on a concrete run with a failing tick push, the agent
dies (the run outcome is fatal). -/
theorem c7_witness :
    c7Inp.script = ScriptResult.ok [c7Tick] ⟨"x", 1⟩
    ∧ c7Tick ∈ [c7Tick]
    ∧ c7Tick.response = Except.error "Put jobs/7: connection reset"
    ∧ (runJob c7Job c7Inp).isFatal = true :=
  ⟨rfl, List.mem_cons_self c7Tick [],  rfl,
    (c7_push_failure_fatal c7Job c7Inp [c7Tick] ⟨"x", 1⟩ c7Tick
      "Put jobs/7: connection reset" rfl (List.mem_cons_self c7Tick []) rfl).1⟩

/-- C9: whenever `Job.Run` returns at all, the returned error is `nil` —
the caller cannot distinguish failed from successful runs by the
return value (the only `return` in Run is `return nil`, job.go line 107). -/
theorem c9_run_returns_nil (j0 : Job) (inp : RunInput) (evs : List Event)
    (jF : Job) (e : Option String)
    (h : runJob j0 inp = RunOutcome.returned evs jF e) : e = none := by
  cases hs : inp.script with
  | launchError msg =>
    simp only [runJob, hs] at h
    injection h with h1 h2 h3
    exact h3.symm
  | ok ticks proc =>
    rcases hrt : runTicks { j0 with startedAt := inp.startTime } ticks with ⟨jT, tickEvs, f⟩
    cases f with
    | true => simp only [runJob, hs, hrt] at h; exact absurd h (by simp)
    | false =>
      simp only [runJob, hs, hrt] at h
      injection h with h1 h2 h3
      exact h3.symm

/-- Job of the C9 witness run. -/
def c9Job : Job := ⟨"9", "scheduled", [], "", "", "", ""⟩

/-- Input of the C9 witness run: a clean run with no ticks. -/
def c9Inp : RunInput :=
  { startedPush := Except.ok c9Job, script := ScriptResult.ok [] ⟨"done", 0⟩,
    finalPush := Except.ok c9Job, startTime := "S", finishTime := "F" }

/-- Final job of the C9 witness run. -/
def c9Final : Job := ⟨"9", "scheduled", [], "done", "0", "S", "F"⟩

/-- Trace of the C9 witness run. -/
def c9Evs : List Event :=
  [Event.logStartingJob "9", Event.pushStarted ⟨"9", "scheduled", [], "", "", "S", ""⟩,
   Event.runScript [], Event.pushFinal c9Final, Event.logFinished "9"]

/-- Witness for C9 at a concrete completed run. -/
theorem c9_witness :
    runJob c9Job c9Inp = RunOutcome.returned c9Evs c9Final none
    ∧ (none : Option String) = none :=
  ⟨by decide, c9_run_returns_nil c9Job c9Inp c9Evs c9Final none (by decide)⟩

/-- Job of the C8 counterexample run. -/
def c8Job : Job := ⟨"8", "scheduled", [], "", "", "", ""⟩

/-- C8 input whose started push succeeds. -/
def c8InpOk : RunInput :=
  { startedPush := Except.ok c8Job, script := ScriptResult.ok [] ⟨"ok", 0⟩,
    finalPush := Except.ok c8Job, startTime := "S", finishTime := "F" }

/-- C8 input whose started push fails. -/
def c8InpFail : RunInput := { c8InpOk with startedPush := Except.error "connection refused" }

/-- C8 counterexample: when the started push fails, the run's trace and
outcome are identical to those of a run whose started push succeeded — the
failure leaves no trace whatsoever, so in particular it is not logged — and
the process is still launched. -/
theorem c8_counterexample :
    runJob c8Job c8InpFail = runJob c8Job c8InpOk
    ∧ Event.runScript [] ∈ (runJob c8Job c8InpFail).events :=
  ⟨rfl, by decide⟩

/-- C8 amended: the started push (job.go line 61) is fire-and-forget — its
result, error or not, is discarded without being read or logged, and the run
always proceeds to the `RunScript` launch. -/
theorem c8_started_push_ignored (j0 : Job) (inp : RunInput) (r : Except String Job) :
    runJob j0 { inp with startedPush := r } = runJob j0 inp
    ∧ Event.runScript (envStrings j0) ∈ (runJob j0 inp).events := by
  constructor
  · rfl
  · cases hs : inp.script with
    | launchError msg => simp [runJob, hs, RunOutcome.events]
    | ok ticks proc =>
      rcases hrt : runTicks { j0 with startedAt := inp.startTime } ticks with ⟨jT, tickEvs, f⟩
      cases f with
      | true => simp [runJob, hs, hrt, RunOutcome.events]
      | false => simp [runJob, hs, hrt, RunOutcome.events]

/-- Job of the C4 runs. -/
def c4Job : Job := ⟨"4", "scheduled", [], "", "", "", ""⟩

/-- Input of the C4 runs: the child process cannot be launched. -/
def c4Inp : RunInput :=
  { startedPush := Except.ok c4Job,
    script := ScriptResult.launchError "fork/exec bootstrap.sh: no such file or directory",
    finalPush := Except.ok c4Job, startTime := "S", finishTime := "F" }

/-- C4 counterexample: on a concrete launch-failure run the job still
finalizes, but `ExitStatus` does not remain absent — job.go line 100 runs
unconditionally and records the zero handle's exit status, the string "0". -/
theorem c4_counterexample :
    (runJob c4Job c4Inp).finalJob?.map Job.exitStatus = some "0"
    ∧ (runJob c4Job c4Inp).finalJob?.map Job.exitStatus ≠ some "" :=
  ⟨by decide, by decide⟩

/-- C4 amended: if the child process cannot be launched, the engine still
transitions through Finalizing and Done — output is replaced by the launch
error's description, `FinishedAt` is stamped, and a final update is pushed —
but an exit status IS recorded: `ExitStatus` is set to "0", the rendering of
the zero-valued handle's exit status, rather than remaining absent. -/
theorem c4_launch_failure_finalizes (j0 : Job) (inp : RunInput) (msg : String)
    (hs : inp.script = ScriptResult.launchError msg) :
    (runJob j0 inp).finalJob?.map Job.output = some msg
    ∧ (runJob j0 inp).finalJob?.map Job.exitStatus = some "0"
    ∧ (runJob j0 inp).finalJob?.map Job.finishedAt = some inp.finishTime
    ∧ (runJob j0 inp).finalPushed = true := by
  simp only [runJob, hs]
  refine ⟨rfl, ?_, rfl, ?_⟩
  · simp only [RunOutcome.finalJob?, Option.map_some]
    have : sprintfD zeroProcess.exitStatus = "0" := by decide
    simp [this]
  · simp [RunOutcome.finalPushed]

/-- Witness for the amended C4 at the concrete launch-failure run. -/
theorem c4_witness :
    c4Inp.script = ScriptResult.launchError "fork/exec bootstrap.sh: no such file or directory"
    ∧ (runJob c4Job c4Inp).finalJob?.map Job.output =
        some "fork/exec bootstrap.sh: no such file or directory" :=
  ⟨rfl, (c4_launch_failure_finalizes c4Job c4Inp
    "fork/exec bootstrap.sh: no such file or directory" rfl).1⟩

/-! ## Artifact pipeline: `src/buildkite/artifact_uploader.go`

String primitives from the Go standard library (`strings.Split`,
`strings.TrimSpace`, `strings.HasPrefix`, `strings.Replace` with n = 1,
`strings.TrimPrefix`) are modelled by executable character-list functions
below. -/

/-- Models `strings.Split(s, sep)` for a one-character separator, the only
form the uploader uses (it splits on ";"). -/
def splitOnCharAux (c : Char) : List Char → List Char → List (List Char)
  | [], acc => [acc.reverse]
  | x :: xs, acc =>
    if x = c then acc.reverse :: splitOnCharAux c xs []
    else splitOnCharAux c xs (x :: acc)

/-- Splits a string on a separator character; like Go, a string with no
separator yields a single field and an empty string yields one empty field. -/
def splitOnChar (c : Char) (s : String) : List String :=
  (splitOnCharAux c s.data []).map String.mk

/-- ASCII whitespace, the cases of `strings.TrimSpace` that matter here. -/
def isSpaceChar (c : Char) : Bool := c = ' ' || c = '\t' || c = '\n' || c = '\r'

/-- Models `strings.TrimSpace`. -/
def trimChars (s : String) : String :=
  String.mk ((s.data.dropWhile isSpaceChar).reverse.dropWhile isSpaceChar).reverse

/-- Character-list core of `strings.HasPrefix`. -/
def isPrefixOfChars : List Char → List Char → Bool
  | [], _ => true
  | _ :: _, [] => false
  | a :: as, b :: bs => a = b && isPrefixOfChars as bs

/-- Models `strings.HasPrefix(s, p)`. -/
def hasPrefixStr (s p : String) : Bool := isPrefixOfChars p.data s.data

/-- Character-list core of `strings.Replace(s, old, new, 1)`: replace the
first occurrence of `old`, if any. -/
def replaceFirstAux (old new : List Char) : List Char → List Char
  | [] => []
  | c :: rest =>
    if isPrefixOfChars old (c :: rest) then new ++ (c :: rest).drop old.length
    else c :: replaceFirstAux old new rest

/-- Models `strings.Replace(s, old, new, 1)` (artifact_uploader.go line 81
uses it to strip the working directory from the absolute path). -/
def replaceFirstStr (s old new : String) : String :=
  String.mk (replaceFirstAux old.data new.data s.data)

/-- Models `strings.TrimPrefix(s, p)` (artifact_uploader.go line 84). -/
def trimLeading (s p : String) : String :=
  if hasPrefixStr s p then String.mk (s.data.drop p.data.length) else s

/-- Models `string(os.PathSeparator)` on the platform the agent targets. -/
def pathSeparator : String := "/"

/-- Embeds the `Artifact` record as used by artifact_uploader.go (the struct
itself lives in a file not under src/; its fields are modelled from the
spec's data model §3 and the field accesses in artifact_uploader.go
lines 120-128 and 153-204). -/
structure Artifact where
  jobID : String
  state : String
  path : String
  absolutePath : String
  globPath : String
  fileSize : Int
  sha1sum : String
  url : String
deriving DecidableEq

/-- Embeds the `ArtifactUploader` configuration struct (lines 16-28); the
`API` handle is a capability, not data, and is left out. -/
structure ArtifactUploader where
  jobID : String
  paths : String
  destination : String

/-- What `os.Stat`/`file.Stat` reports, as far as the uploader reads it:
directory flag and size. -/
structure FileInfo where
  isDir : Bool
  size : Int
deriving DecidableEq

/-- External filesystem and library collaborators of collection: working
directory, `glob.Glob` keyed by pattern, `filepath.Abs`, `os.Stat`,
`os.Open`, `file.Stat`, the bytes `io.Copy` manages to read, the error
`io.Copy` may report, and the sha1 hex digest function. -/
structure FileWorld where
  cwd : String
  globOf : String → Except String (List String)
  absOf : String → Except String String
  statOf : String → Except String FileInfo
  openOf : String → Option String
  fstatOf : String → Except String FileInfo
  contentOf : String → String
  copyErrOf : String → Option String
  hashHex : String → String

/-- Result of `collect`: a returned error, a nil-FileInfo dereference panic
(see `collectFromFiles`), or the artifact manifest. -/
inductive CollectResult where
  | panics
  | fails (e : String)
  | ok (arts : List Artifact)
deriving DecidableEq

/-- Embeds `build` (artifact_uploader.go lines 100-131): open the file
(error returned), `file.Stat` (error returned), then hash via
`io.Copy(hash, file)` — whose error is IGNORED at line 116, so the checksum
is computed from whatever bytes were read — and assemble the artifact with
state "new". -/
def build (a : ArtifactUploader) (w : FileWorld)
    (relativePath absolutePath globPath : String) : Except String Artifact :=
  match w.openOf absolutePath with
  | some e => Except.error e
  | none =>
    match w.fstatOf absolutePath with
    | Except.error e => Except.error e
    | Except.ok fileInfo =>
      let checksum := w.hashHex (w.contentOf absolutePath)
      Except.ok { jobID := a.jobID, state := "new", path := relativePath, absolutePath := absolutePath, globPath := globPath, fileSize := fileInfo.size, sha1sum := checksum, url := "" }

/-- Embeds the inner loop of `collect` (lines 66-93) over the files one glob
returned: `filepath.Abs` (error returned); `os.Stat`, whose error is NOT
checked at line 73 before `fileInfo.IsDir()` is called at line 74 — on a
stat failure the FileInfo interface is nil and the call panics; directories
are skipped; otherwise derive the relative path and `build` the artifact. -/
def collectFromFiles (a : ArtifactUploader) (w : FileWorld) (globPath : String) :
    List String → CollectResult
  | [] => CollectResult.ok []
  | file :: rest =>
    match w.absOf file with
    | Except.error e => CollectResult.fails e
    | Except.ok absolutePath =>
      match w.statOf absolutePath with
      | Except.error _ => CollectResult.panics
      | Except.ok fileInfo =>
        if fileInfo.isDir then collectFromFiles a w globPath rest
        else
          let relativePath :=
            trimLeading (replaceFirstStr absolutePath w.cwd "") pathSeparator
          match build a w relativePath absolutePath globPath with
          | Except.error e => CollectResult.fails e
          | Except.ok artifact =>
            match collectFromFiles a w globPath rest with
            | CollectResult.ok arts => CollectResult.ok (artifact :: arts)
            | r => r

/-- Embeds the outer loop of `collect` (lines 55-95) over the
semicolon-separated patterns: trim each; skip empties; `glob.Glob` (error
returned); then the per-file loop. -/
def collectFromGlobs (a : ArtifactUploader) (w : FileWorld) :
    List String → CollectResult
  | [] => CollectResult.ok []
  | g :: gs =>
    let g := trimChars g
    if g = "" then collectFromGlobs a w gs
    else
      match w.globOf g with
      | Except.error e => CollectResult.fails e
      | Except.ok files =>
        match collectFromFiles a w g files with
        | CollectResult.ok arts =>
          match collectFromGlobs a w gs with
          | CollectResult.ok arts2 => CollectResult.ok (arts ++ arts2)
          | r => r
        | r => r

/-- Embeds `collect` (lines 51-98): split `Paths` on ";" and walk the
patterns. -/
def collect (a : ArtifactUploader) (w : FileWorld) : CollectResult :=
  collectFromGlobs a w (splitOnChar ';' a.paths)

/-- The two concrete `Uploader` implementations dispatched over in `upload`
(lines 134-145). -/
inductive UploaderKind where
  | s3
  | form
deriving DecidableEq

/-- Embeds the uploader dispatch of `upload` (lines 136-145): a non-empty
destination must start with "s3://" (S3Uploader) or is a configuration
error; an empty destination selects the FormUploader. -/
def chooseUploader (destination : String) : Except String UploaderKind :=
  if destination ≠ "" then
    if hasPrefixStr destination "s3://" then Except.ok UploaderKind.s3
    else Except.error ("Unknown upload destination: " ++ destination)
  else Except.ok UploaderKind.form

/-- Observable actions of the upload phase, in program order: the
`uploader.Setup` call, each URL assignment, the batch `Create` call carrying
the registered artifacts, and per-artifact task actions (the "Uploading" log
line, the transport upload attempt, the state push via `artifact.Update`, an
error log line), plus the aggregate `logger.Fatal` and the two `Upload`
summary log lines. -/
inductive UEvent where
  | setup (destination : String)
  | assignURL (path url : String)
  | create (batch : List Artifact)
  | logUploading (path : String)
  | transportUpload (path : String)
  | updateState (path state : String)
  | logError (msg : String)
  | fatalOverall
  | logNoFiles
  | logFound (n : Nat)
deriving DecidableEq

/-- Outcome of one artifact's external calls: the transport `Upload` result
and the `artifact.Update` status-push result (`none` = success). -/
structure TaskOutcome where
  uploadErr : Option String
  updateErr : Option String
deriving DecidableEq

/-- External collaborators of the upload phase: the transport's `Setup`
result, its `URL` function, the batch `Create` result, and each artifact's
task outcome. -/
structure UploadWorld where
  setupResult : Option String
  urlFor : Artifact → String
  createResult : Option String
  outcomeOf : Artifact → TaskOutcome

/-- The state an artifact is left in by its upload task (lines 183-194):
"error" when the transport upload failed, else "finished". -/
def taskState (uw : UploadWorld) (a : Artifact) : String :=
  if (uw.outcomeOf a).uploadErr.isSome then "error" else "finished"


/-- Embeds one spawned task of the pool loop (lines 177-206): log the
"Uploading" line, attempt the transport upload; on failure set state
"error", log the error and append it to the shared list; on success set
state "finished"; in both cases push the artifact's new state via
`artifact.Update`, logging and appending a push failure as well.  Returns
the artifact's final value, the errors this task appended (in order), and
the task's events. -/
def runTask (uw : UploadWorld) (a : Artifact) : Artifact × List String × List UEvent :=
  match (uw.outcomeOf a).uploadErr, (uw.outcomeOf a).updateErr with
  | some e, some e2 =>
    ({ a with state := "error" }, [e, e2],
      [UEvent.logUploading a.path, UEvent.transportUpload a.path, UEvent.logError e,
       UEvent.updateState a.path "error", UEvent.logError e2])
  | some e, none =>
    ({ a with state := "error" }, [e],
      [UEvent.logUploading a.path, UEvent.transportUpload a.path, UEvent.logError e,
       UEvent.updateState a.path "error"])
  | none, some e2 =>
    ({ a with state := "finished" }, [e2],
      [UEvent.logUploading a.path, UEvent.transportUpload a.path,
       UEvent.updateState a.path "finished", UEvent.logError e2])
  | none, none =>
    ({ a with state := "finished" }, [],
      [UEvent.logUploading a.path, UEvent.transportUpload a.path,
       UEvent.updateState a.path "finished"])

/-- Embeds the pool fan-out (lines 169-209).  The spawned closures are
independent except for the lock-guarded error list, so the batch is modelled
as the sequential run of the tasks in submission order; `Wait` corresponds
to returning only the fully accumulated triple. -/
def runTasks (uw : UploadWorld) : List Artifact → List Artifact × List String × List UEvent
  | [] => ([], [], [])
  | a :: rest =>
    match runTask uw a, runTasks uw rest with
    | (a1, errs1, evs1), (as2, errs2, evs2) => (a1 :: as2, errs1 ++ errs2, evs1 ++ evs2)

/-- Result of the upload phase: a returned error, the `logger.Fatal` exit
taken when the aggregate error list is non-empty after `Wait` (line 212), or
a nil return; the latter two carry the artifacts' final states. -/
inductive UploadResult where
  | err (events : List UEvent) (msg : String)
  | fatalErrors (events : List UEvent) (finalArts : List Artifact)
  | ok (events : List UEvent) (finalArts : List Artifact)
deriving DecidableEq

/-- Embeds `upload` (lines 133-216): dispatch the uploader on the
destination (returning the configuration error before anything else runs);
`Setup` (error returned); assign every artifact's URL from the uploader
(lines 154-156); register the whole manifest as one batch `Create`
(lines 159-167, error returned); then spawn one task per artifact, `Wait`,
and exit via `logger.Fatal` when any error was recorded. -/
def upload (a : ArtifactUploader) (artifacts : List Artifact) (uw : UploadWorld) :
    UploadResult :=
  match chooseUploader a.destination with
  | Except.error e => UploadResult.err [] e
  | Except.ok _ =>
    match uw.setupResult with
    | some e => UploadResult.err [UEvent.setup a.destination] e
    | none =>
      let arts1 := artifacts.map fun art => { art with url := uw.urlFor art }
      let regEvs := UEvent.setup a.destination ::
        (artifacts.map fun art => UEvent.assignURL art.path (uw.urlFor art)) ++
        [UEvent.create arts1]
      match uw.createResult with
      | some e => UploadResult.err regEvs e
      | none =>
        match runTasks uw arts1 with
        | (finalArts, errs, taskEvs) =>
          if errs.isEmpty then UploadResult.ok (regEvs ++ taskEvs) finalArts
          else UploadResult.fatalErrors (regEvs ++ taskEvs ++ [UEvent.fatalOverall]) finalArts

/-- Embeds the exported `Upload` (lines 30-49): collect; on zero artifacts
log the summary and return nil; otherwise log the count and run the upload
phase, propagating its result. -/
inductive UploadOutcome where
  | panicked
  | err (events : List UEvent) (msg : String)
  | fatalErrors (events : List UEvent) (finalArts : List Artifact)
  | ok (events : List UEvent) (finalArts : List Artifact)
deriving DecidableEq

/-- Embeds `Upload` (artifact_uploader.go lines 30-49). -/
def Upload (a : ArtifactUploader) (w : FileWorld) (uw : UploadWorld) : UploadOutcome :=
  match collect a w with
  | CollectResult.panics => UploadOutcome.panicked
  | CollectResult.fails e => UploadOutcome.err [] e
  | CollectResult.ok artifacts =>
    if artifacts.length = 0 then UploadOutcome.ok [UEvent.logNoFiles] []
    else
      match upload a artifacts uw with
      | UploadResult.err evs e =>
        UploadOutcome.err (UEvent.logFound artifacts.length :: evs) e
      | UploadResult.fatalErrors evs fa =>
        UploadOutcome.fatalErrors (UEvent.logFound artifacts.length :: evs) fa
      | UploadResult.ok evs fa =>
        UploadOutcome.ok (UEvent.logFound artifacts.length :: evs) fa

/-- Trace of an upload-phase result. -/
def UploadResult.events : UploadResult → List UEvent
  | UploadResult.err evs _ => evs
  | UploadResult.fatalErrors evs _ => evs
  | UploadResult.ok evs _ => evs

/-- Final artifact states of an upload-phase result, when the fan-out ran. -/
def UploadResult.finalArts? : UploadResult → Option (List Artifact)
  | UploadResult.err _ _ => none
  | UploadResult.fatalErrors _ fa => some fa
  | UploadResult.ok _ fa => some fa

/-- Events emitted only by per-artifact tasks (or after them). -/
def perArtifactEvent : UEvent → Bool
  | UEvent.logUploading _ => true
  | UEvent.transportUpload _ => true
  | UEvent.updateState _ _ => true
  | UEvent.logError _ => true
  | UEvent.fatalOverall => true
  | _ => false

/-- Recognizer of the batch registration event. -/
def isCreateEvent : UEvent → Bool
  | UEvent.create _ => true
  | _ => false

lemma runTask_fst (uw : UploadWorld) (a : Artifact) :
    (runTask uw a).1 = { a with state := taskState uw a } := by
  rcases huo : (uw.outcomeOf a).uploadErr with _ | e <;>
    rcases hue : (uw.outcomeOf a).updateErr with _ | e2 <;>
    simp [runTask, taskState, huo, hue]

lemma runTask_errs (uw : UploadWorld) (a : Artifact) :
    (runTask uw a).2.1 = [] ↔
      (uw.outcomeOf a).uploadErr = none ∧ (uw.outcomeOf a).updateErr = none := by
  rcases huo : (uw.outcomeOf a).uploadErr with _ | e <;>
    rcases hue : (uw.outcomeOf a).updateErr with _ | e2 <;>
    simp [runTask, huo, hue]

lemma runTask_upload_mem (uw : UploadWorld) (a : Artifact) :
    UEvent.transportUpload a.path ∈ (runTask uw a).2.2 := by
  rcases huo : (uw.outcomeOf a).uploadErr with _ | e <;>
    rcases hue : (uw.outcomeOf a).updateErr with _ | e2 <;>
    simp [runTask, huo, hue]

lemma runTask_update_mem (uw : UploadWorld) (a : Artifact) :
    UEvent.updateState a.path (taskState uw a) ∈ (runTask uw a).2.2 := by
  rcases huo : (uw.outcomeOf a).uploadErr with _ | e <;>
    rcases hue : (uw.outcomeOf a).updateErr with _ | e2 <;>
    simp [runTask, taskState, huo, hue]

lemma runTask_kind (uw : UploadWorld) (a : Artifact) :
    ∀ ev ∈ (runTask uw a).2.2, perArtifactEvent ev = true := by
  rcases huo : (uw.outcomeOf a).uploadErr with _ | e <;>
    rcases hue : (uw.outcomeOf a).updateErr with _ | e2 <;>
    simp [runTask, huo, hue, perArtifactEvent]

lemma runTask_no_create (uw : UploadWorld) (a : Artifact) :
    ∀ ev ∈ (runTask uw a).2.2, isCreateEvent ev = false := by
  rcases huo : (uw.outcomeOf a).uploadErr with _ | e <;>
    rcases hue : (uw.outcomeOf a).updateErr with _ | e2 <;>
    simp [runTask, huo, hue, isCreateEvent]

lemma runTasks_fst (uw : UploadWorld) (l : List Artifact) :
    (runTasks uw l).1 = l.map fun a => { a with state := taskState uw a } := by
  induction l with
  | nil => simp [runTasks]
  | cons a rest ih =>
    rcases h1 : runTask uw a with ⟨a1, errs1, evs1⟩
    rcases h2 : runTasks uw rest with ⟨as2, errs2, evs2⟩
    have ha1 : a1 = { a with state := taskState uw a } := by
      have := runTask_fst uw a; rw [h1] at this; exact this
    have has2 : as2 = rest.map fun a => { a with state := taskState uw a } := by
      rw [h2] at ih; exact ih
    simp [runTasks, h1, h2, ha1, has2]

lemma runTasks_errs_nil_iff (uw : UploadWorld) (l : List Artifact) :
    (runTasks uw l).2.1 = [] ↔
      ∀ a ∈ l, (uw.outcomeOf a).uploadErr = none ∧ (uw.outcomeOf a).updateErr = none := by
  induction l with
  | nil => simp [runTasks]
  | cons a rest ih =>
    rcases h1 : runTask uw a with ⟨a1, errs1, evs1⟩
    rcases h2 : runTasks uw rest with ⟨as2, errs2, evs2⟩
    have e1 := runTask_errs uw a; rw [h1] at e1
    rw [h2] at ih
    simp only [runTasks, h1, h2, List.append_eq_nil, List.forall_mem_cons]
    exact and_congr e1 ih

lemma runTasks_upload_mem (uw : UploadWorld) (l : List Artifact) :
    ∀ a ∈ l, UEvent.transportUpload a.path ∈ (runTasks uw l).2.2 := by
  induction l with
  | nil => intro a ha; exact absurd ha (List.not_mem_nil a)
  | cons b rest ih =>
    intro a ha
    rcases h1 : runTask uw b with ⟨a1, errs1, evs1⟩
    rcases h2 : runTasks uw rest with ⟨as2, errs2, evs2⟩
    simp only [runTasks, h1, h2]
    rcases List.mem_cons.mp ha with rfl | ha'
    · have := runTask_upload_mem uw a; rw [h1] at this
      exact List.mem_append_left _ this
    · have := ih a ha'; rw [h2] at this
      exact List.mem_append_right _ this

lemma runTasks_update_mem (uw : UploadWorld) (l : List Artifact) :
    ∀ a ∈ l, UEvent.updateState a.path (taskState uw a) ∈ (runTasks uw l).2.2 := by
  induction l with
  | nil => intro a ha; exact absurd ha (List.not_mem_nil a)
  | cons b rest ih =>
    intro a ha
    rcases h1 : runTask uw b with ⟨a1, errs1, evs1⟩
    rcases h2 : runTasks uw rest with ⟨as2, errs2, evs2⟩
    simp only [runTasks, h1, h2]
    rcases List.mem_cons.mp ha with rfl | ha'
    · have := runTask_update_mem uw a; rw [h1] at this
      exact List.mem_append_left _ this
    · have := ih a ha'; rw [h2] at this
      exact List.mem_append_right _ this

lemma runTasks_kind (uw : UploadWorld) (l : List Artifact) :
    ∀ ev ∈ (runTasks uw l).2.2, perArtifactEvent ev = true := by
  induction l with
  | nil => intro ev hev; simp [runTasks] at hev
  | cons b rest ih =>
    intro ev hev
    rcases h1 : runTask uw b with ⟨a1, errs1, evs1⟩
    rcases h2 : runTasks uw rest with ⟨as2, errs2, evs2⟩
    simp only [runTasks, h1, h2] at hev
    rcases List.mem_append.mp hev with h | h
    · have := runTask_kind uw b; rw [h1] at this; exact this ev h
    · have := ih; rw [h2] at this; exact this ev h

lemma runTasks_no_create (uw : UploadWorld) (l : List Artifact) :
    ∀ ev ∈ (runTasks uw l).2.2, isCreateEvent ev = false := by
  induction l with
  | nil => intro ev hev; simp [runTasks] at hev
  | cons b rest ih =>
    intro ev hev
    rcases h1 : runTask uw b with ⟨a1, errs1, evs1⟩
    rcases h2 : runTasks uw rest with ⟨as2, errs2, evs2⟩
    simp only [runTasks, h1, h2] at hev
    rcases List.mem_append.mp hev with h | h
    · have := runTask_no_create uw b; rw [h1] at this; exact this ev h
    · have := ih; rw [h2] at this; exact this ev h

/-! ## Claims about the artifact pipeline -/

/-- C2: with dispatch, setup and registration succeeding, every artifact's
upload is attempted (no early exit on failure), each artifact ends in state
"error" exactly when its own transport upload failed and "finished"
otherwise — successful uploads stand even when the batch fails — the new
state is pushed for every artifact, and the coordinator exits via
`logger.Fatal` if and only if the shared error list is non-empty, which
happens exactly when some artifact's upload or state push failed. -/
theorem c2_upload_aggregation (cfg : ArtifactUploader) (arts : List Artifact)
    (uw : UploadWorld) (kind : UploaderKind)
    (hk : chooseUploader cfg.destination = Except.ok kind)
    (hs : uw.setupResult = none) (hc : uw.createResult = none) :
    (∀ a ∈ arts.map fun art => { art with url := uw.urlFor art },
        UEvent.transportUpload a.path ∈ (upload cfg arts uw).events)
    ∧ (∀ a ∈ arts.map fun art => { art with url := uw.urlFor art },
        UEvent.updateState a.path (taskState uw a) ∈ (upload cfg arts uw).events)
    ∧ (upload cfg arts uw).finalArts? =
        some ((arts.map fun art => { art with url := uw.urlFor art }).map
          fun a => { a with state := taskState uw a })
    ∧ ((∃ evs fa, upload cfg arts uw = UploadResult.fatalErrors evs fa) ↔
        (runTasks uw (arts.map fun art => { art with url := uw.urlFor art })).2.1 ≠ [])
    ∧ ((runTasks uw (arts.map fun art => { art with url := uw.urlFor art })).2.1 ≠ [] ↔
        ∃ a ∈ arts.map fun art => { art with url := uw.urlFor art },
          (uw.outcomeOf a).uploadErr ≠ none ∨ (uw.outcomeOf a).updateErr ≠ none) := by
  have hup := runTasks_upload_mem uw (arts.map fun art => { art with url := uw.urlFor art })
  have hupd := runTasks_update_mem uw (arts.map fun art => { art with url := uw.urlFor art })
  have hfst := runTasks_fst uw (arts.map fun art => { art with url := uw.urlFor art })
  have herrs := runTasks_errs_nil_iff uw (arts.map fun art => { art with url := uw.urlFor art })
  rcases hrt : runTasks uw (arts.map fun art => { art with url := uw.urlFor art })
    with ⟨fa, errs, taskEvs⟩
  rw [hrt] at hup hupd hfst herrs
  cases errs with
  | nil =>
    have heq : upload cfg arts uw = UploadResult.ok
        ((UEvent.setup cfg.destination ::
          (arts.map fun art => UEvent.assignURL art.path (uw.urlFor art)) ++
          [UEvent.create (arts.map fun art => { art with url := uw.urlFor art })]) ++ taskEvs)
        fa := by
      simp [upload, hk, hs, hc, hrt]
    refine ⟨?_, ?_, ?_, ?_, ?_⟩
    · intro a ha
      rw [heq]
      exact List.mem_append_right _ (hup a ha)
    · intro a ha
      rw [heq]
      exact List.mem_append_right _ (hupd a ha)
    · rw [heq]
      simp only [UploadResult.finalArts?]
      exact congrArg some hfst
    · rw [hrt]
      constructor
      · rintro ⟨evs', fa', hfe⟩
        rw [heq] at hfe
        exact absurd hfe (by simp)
      · intro hne
        exact absurd rfl hne
    · rw [hrt]
      constructor
      · intro hne
        exact absurd rfl hne
      · rintro ⟨a, ha, hor⟩
        have hall := herrs.mp rfl a ha
        rcases hor with h | h
        · exact absurd hall.1 h
        · exact absurd hall.2 h
  | cons e0 erest =>
    have heq : upload cfg arts uw = UploadResult.fatalErrors
        ((UEvent.setup cfg.destination ::
          (arts.map fun art => UEvent.assignURL art.path (uw.urlFor art)) ++
          [UEvent.create (arts.map fun art => { art with url := uw.urlFor art })]) ++ taskEvs ++
          [UEvent.fatalOverall])
        fa := by
      simp [upload, hk, hs, hc, hrt]
    refine ⟨?_, ?_, ?_, ?_, ?_⟩
    · intro a ha
      rw [heq]
      exact List.mem_append_left _ (List.mem_append_right _ (hup a ha))
    · intro a ha
      rw [heq]
      exact List.mem_append_left _ (List.mem_append_right _ (hupd a ha))
    · rw [heq]
      simp only [UploadResult.finalArts?]
      exact congrArg some hfst
    · rw [hrt]
      constructor
      · intro _
        exact List.cons_ne_nil e0 erest
      · intro _
        exact ⟨_, _, heq⟩
    · rw [hrt]
      constructor
      · intro _
        by_contra hno
        push_neg at hno
        have := herrs.mpr hno
        exact absurd this (List.cons_ne_nil e0 erest)
      · intro _
        exact List.cons_ne_nil e0 erest

/-- Configuration of the C2 witness batch (default form destination). -/
def c2Cfg : ArtifactUploader := ⟨"job-2", "a.log;b.log", ""⟩

/-- The two artifacts of the C2 witness batch, as collection built them. -/
def c2Arts : List Artifact :=
  [⟨"job-2", "new", "a.log", "/build/a.log", "a.log", 3, "sha-a", ""⟩,
   ⟨"job-2", "new", "b.log", "/build/b.log", "b.log", 5, "sha-b", ""⟩]

/-- World of the C2 witness batch: a.log's transport upload fails, b.log
succeeds; all pushes succeed. -/
def c2Uw : UploadWorld :=
  { setupResult := none, urlFor := fun a => "https://files/" ++ a.path,
    createResult := none,
    outcomeOf := fun a =>
      if a.path = "a.log" then ⟨some "upload a.log: 503", none⟩ else ⟨none, none⟩ }

/-- Witness for C2 at the concrete two-artifact batch: the failing artifact
ends "error", the successful one ends "finished" (no rollback). -/
theorem c2_witness :
    chooseUploader c2Cfg.destination = Except.ok UploaderKind.form
    ∧ c2Uw.setupResult = none
    ∧ c2Uw.createResult = none
    ∧ (upload c2Cfg c2Arts c2Uw).finalArts? =
        some ((c2Arts.map fun art => { art with url := c2Uw.urlFor art }).map
          fun a => { a with state := taskState c2Uw a }) :=
  ⟨rfl, rfl, rfl,
    (c2_upload_aggregation c2Cfg c2Arts c2Uw UploaderKind.form rfl rfl rfl).2.2.1⟩

/-- C5: with dispatch and setup succeeding, a registration failure returns
before any per-artifact action — the trace then holds only the setup, the
URL assignments and the attempted batch registration; with registration
succeeding, the batch registered carries every artifact with its
transport-assigned URL, the registration happens exactly once, and before
any per-artifact event in the trace both the registration and every
artifact's URL assignment have already occurred. -/
theorem c5_registration_order (cfg : ArtifactUploader) (arts : List Artifact)
    (uw : UploadWorld) (kind : UploaderKind)
    (hk : chooseUploader cfg.destination = Except.ok kind)
    (hs : uw.setupResult = none) :
    (∀ e, uw.createResult = some e →
      upload cfg arts uw = UploadResult.err
        (UEvent.setup cfg.destination ::
          (arts.map fun art => UEvent.assignURL art.path (uw.urlFor art)) ++
          [UEvent.create (arts.map fun art => { art with url := uw.urlFor art })]) e
      ∧ ∀ x ∈ (upload cfg arts uw).events, perArtifactEvent x = false)
    ∧ (uw.createResult = none →
      UEvent.create (arts.map fun art => { art with url := uw.urlFor art }) ∈
        (upload cfg arts uw).events
      ∧ (upload cfg arts uw).events.countP isCreateEvent = 1
      ∧ ∀ l1 x l2, (upload cfg arts uw).events = l1 ++ x :: l2 →
          perArtifactEvent x = true →
          UEvent.create (arts.map fun art => { art with url := uw.urlFor art }) ∈ l1
          ∧ ∀ a ∈ arts, UEvent.assignURL a.path (uw.urlFor a) ∈ l1) := by
  have hreg : ∀ y ∈ UEvent.setup cfg.destination ::
      (arts.map fun art => UEvent.assignURL art.path (uw.urlFor art)) ++
      [UEvent.create (arts.map fun art => { art with url := uw.urlFor art })],
      perArtifactEvent y = false := by
    intro y hy
    rcases List.mem_cons.mp hy with rfl | hy2
    · rfl
    · rcases List.mem_append.mp hy2 with h | h
      · rcases List.mem_map.mp h with ⟨a, _, rfl⟩
        rfl
      · rcases List.mem_cons.mp h with rfl | h2
        · rfl
        · exact absurd h2 (List.not_mem_nil y)
  constructor
  · intro e hce
    have heq : upload cfg arts uw = UploadResult.err
        (UEvent.setup cfg.destination ::
          (arts.map fun art => UEvent.assignURL art.path (uw.urlFor art)) ++
          [UEvent.create (arts.map fun art => { art with url := uw.urlFor art })]) e := by
      simp [upload, hk, hs, hce]
    refine ⟨heq, ?_⟩
    intro x hx
    rw [heq] at hx
    exact hreg x hx
  · intro hce
    have hncr := runTasks_no_create uw (arts.map fun art => { art with url := uw.urlFor art })
    rcases hrt : runTasks uw (arts.map fun art => { art with url := uw.urlFor art })
      with ⟨fa, errs, taskEvs⟩
    rw [hrt] at hncr
    have hcnt0 : List.countP isCreateEvent
        (arts.map fun art => UEvent.assignURL art.path (uw.urlFor art)) = 0 := by
      refine List.countP_eq_zero.mpr ?_
      intro y hy
      rcases List.mem_map.mp hy with ⟨a, _, rfl⟩
      simp [isCreateEvent]
    have hcntT : List.countP isCreateEvent taskEvs = 0 := by
      refine List.countP_eq_zero.mpr ?_
      intro y hy
      simp [hncr y hy]
    cases errs with
    | nil =>
      have heq : upload cfg arts uw = UploadResult.ok
          ((UEvent.setup cfg.destination ::
            (arts.map fun art => UEvent.assignURL art.path (uw.urlFor art)) ++
            [UEvent.create (arts.map fun art => { art with url := uw.urlFor art })]) ++ taskEvs)
          fa := by
        simp [upload, hk, hs, hce, hrt]
      rw [heq]
      simp only [UploadResult.events]
      refine ⟨List.mem_append_left _ (by simp), ?_, ?_⟩
      · simp [List.countP_append, List.countP_cons, List.countP_nil, hcnt0, hcntT, isCreateEvent]
      · intro l1 x l2 hsplit hx
        have hsub := mem_left_of_marked _ taskEvs l1 l2 x perArtifactEvent hsplit hreg hx
        refine ⟨hsub _ (by simp), ?_⟩
        intro a ha
        exact hsub _ (List.mem_cons_of_mem _ (List.mem_append_left _
          (List.mem_map.mpr ⟨a, ha, rfl⟩)))
    | cons e0 erest =>
      have heq : upload cfg arts uw = UploadResult.fatalErrors
          ((UEvent.setup cfg.destination ::
            (arts.map fun art => UEvent.assignURL art.path (uw.urlFor art)) ++
            [UEvent.create (arts.map fun art => { art with url := uw.urlFor art })]) ++ taskEvs ++
            [UEvent.fatalOverall])
          fa := by
        simp [upload, hk, hs, hce, hrt]
      rw [heq]
      simp only [UploadResult.events]
      refine ⟨List.mem_append_left _ (List.mem_append_left _ (by simp)), ?_, ?_⟩
      · simp [List.countP_append, List.countP_cons, List.countP_nil, hcnt0, hcntT, isCreateEvent]
      · intro l1 x l2 hsplit hx
        rw [List.append_assoc] at hsplit
        have hsub := mem_left_of_marked _ (taskEvs ++ [UEvent.fatalOverall]) l1 l2 x
          perArtifactEvent hsplit hreg hx
        refine ⟨hsub _ (by simp), ?_⟩
        intro a ha
        exact hsub _ (List.mem_cons_of_mem _ (List.mem_append_left _
          (List.mem_map.mpr ⟨a, ha, rfl⟩)))

/-- Configuration of the C5 witness batch. -/
def c5Cfg : ArtifactUploader := ⟨"job-5", "a.bin", ""⟩

/-- The single artifact of the C5 witness batch. -/
def c5Arts : List Artifact :=
  [⟨"job-5", "new", "a.bin", "/build/a.bin", "a.bin", 7, "sha-5", ""⟩]

/-- World of the C5 witness batch: batch registration fails. -/
def c5Uw : UploadWorld :=
  { setupResult := none, urlFor := fun a => "https://files/" ++ a.path,
    createResult := some "POST artifacts: 500", outcomeOf := fun _ => ⟨none, none⟩ }

/-- Witness for C5: a concrete registration failure aborts the upload phase
with a trace holding only setup, URL assignment and the attempted create. -/
theorem c5_witness :
    chooseUploader c5Cfg.destination = Except.ok UploaderKind.form
    ∧ c5Uw.setupResult = none
    ∧ upload c5Cfg c5Arts c5Uw = UploadResult.err
        (UEvent.setup c5Cfg.destination ::
          (c5Arts.map fun art => UEvent.assignURL art.path (c5Uw.urlFor art)) ++
          [UEvent.create (c5Arts.map fun art => { art with url := c5Uw.urlFor art })])
        "POST artifacts: 500" :=
  ⟨rfl, rfl,
    ((c5_registration_order c5Cfg c5Arts c5Uw UploaderKind.form rfl rfl).1
      "POST artifacts: 500" rfl).1⟩

/-- C6: transport selection is a total three-way dispatch on the destination
string — empty selects the form uploader, an "s3://" prefix selects the S3
uploader, and any other non-empty destination yields the configuration
error, returned with an empty trace: before any setup, URL assignment,
registration or upload. -/
theorem c6_transport_dispatch (cfg : ArtifactUploader) (arts : List Artifact)
    (uw : UploadWorld) :
    (cfg.destination = "" →
      chooseUploader cfg.destination = Except.ok UploaderKind.form)
    ∧ (hasPrefixStr cfg.destination "s3://" = true →
      chooseUploader cfg.destination = Except.ok UploaderKind.s3)
    ∧ (cfg.destination ≠ "" → hasPrefixStr cfg.destination "s3://" = false →
      chooseUploader cfg.destination =
        Except.error ("Unknown upload destination: " ++ cfg.destination)
      ∧ upload cfg arts uw =
          UploadResult.err [] ("Unknown upload destination: " ++ cfg.destination)) := by
  refine ⟨?_, ?_, ?_⟩
  · intro hd
    simp [chooseUploader, hd]
  · intro hpre
    by_cases hd : cfg.destination = ""
    · rw [hd] at hpre
      exact absurd hpre (by decide)
    · simp [chooseUploader, hd, hpre]
  · intro hd hpre
    have hch : chooseUploader cfg.destination =
        Except.error ("Unknown upload destination: " ++ cfg.destination) := by
      simp [chooseUploader, hd, hpre]
    exact ⟨hch, by simp [upload, hch]⟩

/-- Configuration of the C6 witness: an unrecognized destination scheme. -/
def c6Cfg : ArtifactUploader := ⟨"job-6", "*.log", "ftp://host/dir"⟩

/-- World of the C6 witness (never reached). -/
def c6Uw : UploadWorld :=
  { setupResult := none, urlFor := fun _ => "", createResult := none,
    outcomeOf := fun _ => ⟨none, none⟩ }

/-- Witness for C6: the concrete "ftp://" destination is rejected before any
event is emitted. -/
theorem c6_witness :
    c6Cfg.destination ≠ ""
    ∧ hasPrefixStr c6Cfg.destination "s3://" = false
    ∧ upload c6Cfg [] c6Uw =
        UploadResult.err [] ("Unknown upload destination: " ++ c6Cfg.destination) :=
  ⟨by decide, by decide,
    ((c6_transport_dispatch c6Cfg [] c6Uw).2.2 (by decide) (by decide)).2⟩

/-- C10: when collection succeeds with zero artifacts, `Upload` returns nil
right after the summary log line — the trace is exactly that line, so no
transport selection, setup, URL assignment or registration happened — and
the result does not depend on the upload-phase world at all. -/
theorem c10_no_files (cfg : ArtifactUploader) (w : FileWorld) (uw uw' : UploadWorld)
    (h : collect cfg w = CollectResult.ok []) :
    Upload cfg w uw = UploadOutcome.ok [UEvent.logNoFiles] []
    ∧ Upload cfg w uw = Upload cfg w uw' := by
  have h1 : Upload cfg w uw = UploadOutcome.ok [UEvent.logNoFiles] [] := by
    simp [Upload, h]
  have h2 : Upload cfg w uw' = UploadOutcome.ok [UEvent.logNoFiles] [] := by
    simp [Upload, h]
  exact ⟨h1, h1.trans h2.symm⟩

/-- Configuration of the C10 witness. -/
def c10Cfg : ArtifactUploader := ⟨"job-10", "*.log", ""⟩

/-- Filesystem world of the C10 witness: the glob matches nothing. -/
def c10W : FileWorld :=
  { cwd := "/build", globOf := fun _ => Except.ok [], absOf := fun f => Except.ok f,
    statOf := fun _ => Except.ok ⟨false, 0⟩, openOf := fun _ => none,
    fstatOf := fun _ => Except.ok ⟨false, 0⟩, contentOf := fun _ => "",
    copyErrOf := fun _ => none, hashHex := fun s => s }

/-- Upload world of the C10 witness (never reached). -/
def c10Uw : UploadWorld :=
  { setupResult := none, urlFor := fun _ => "", createResult := none,
    outcomeOf := fun _ => ⟨none, none⟩ }

/-- Witness for C10 at the concrete empty collection. -/
theorem c10_witness :
    collect c10Cfg c10W = CollectResult.ok []
    ∧ Upload c10Cfg c10W c10Uw = UploadOutcome.ok [UEvent.logNoFiles] [] :=
  ⟨rfl, (c10_no_files c10Cfg c10W c10Uw c10Uw rfl).1⟩

/-- Configuration of the C3 runs. -/
def c3Cfg : ArtifactUploader := ⟨"job-3", "*.txt", ""⟩

/-- Filesystem world in which `os.Stat` fails for the matched file. -/
def c3WStat : FileWorld :=
  { cwd := "/build", globOf := fun _ => Except.ok ["f.txt"],
    absOf := fun f => Except.ok ("/build/" ++ f),
    statOf := fun _ => Except.error "stat /build/f.txt: permission denied",
    openOf := fun _ => none, fstatOf := fun _ => Except.ok ⟨false, 4⟩,
    contentOf := fun _ => "", copyErrOf := fun _ => none,
    hashHex := fun s => "sha1:" ++ s }

/-- Filesystem world in which `io.Copy` fails mid-hash for the matched file,
having read only a partial chunk of it. -/
def c3WCopy : FileWorld :=
  { cwd := "/build", globOf := fun _ => Except.ok ["g.txt"],
    absOf := fun f => Except.ok ("/build/" ++ f),
    statOf := fun _ => Except.ok ⟨false, 1024⟩, openOf := fun _ => none,
    fstatOf := fun _ => Except.ok ⟨false, 1024⟩,
    contentOf := fun _ => "partial bytes",
    copyErrOf := fun _ => some "read /build/g.txt: input/output error",
    hashHex := fun s => "sha1:" ++ s }

/-- C3 evaluated at its failing inputs: a stat failure does not abort
collection with that error — line 73's error is never checked and line 74
dereferences the nil FileInfo, a panic; and a hashing I/O error does not
abort either — line 116 discards the `io.Copy` error and `build` happily
returns an artifact whose checksum covers only the bytes that were read. -/
theorem c3_collection_io_bug :
    collect c3Cfg c3WStat = CollectResult.panics
    ∧ c3WCopy.copyErrOf "/build/g.txt" = some "read /build/g.txt: input/output error"
    ∧ build c3Cfg c3WCopy "g.txt" "/build/g.txt" "*.txt" =
        Except.ok { jobID := "job-3", state := "new", path := "g.txt", absolutePath := "/build/g.txt", globPath := "*.txt", fileSize := 1024, sha1sum := "sha1:partial bytes", url := "" } :=
  ⟨rfl, rfl, rfl⟩
